import Mathlib

/-!
# Verification of the athenic-demodulator core

Shallow embedding of the Rust sources `src/demodulator.rs`, `src/additive_engine.rs`,
`src/envelope.rs` and `src/voice.rs`.  Machine floats (`f32`/`f64`) are modelled as
exact rationals (`ℚ`); transcendental library calls (`sin`, `sqrt`, `powf`) are taken
as function parameters, since the verified properties do not depend on their values.
The `assert_eq!` length preconditions are modelled by returning `Option`, with `none`
for a panic.  Fixed-size arrays `[f32; 512]` are modelled as total functions `ℕ → ℚ`;
the in-bounds property of every access is proved separately (claim C10).
-/

namespace Athenic

/-- `MAX_HARMONICS` from `additive_engine.rs`. -/
def MAX_HARMONICS : ℕ := 512

/-- `DEMOD_BLOCK_SIZE` from `demodulator.rs` (1050 samples). -/
def DEMOD_BLOCK_SIZE : ℕ := 1050

/-- Array store `working[i] = x`, modelling assignment to a fixed-size array cell. -/
def updFn (f : ℕ → ℚ) (i : ℕ) (x : ℚ) : ℕ → ℚ :=
  fun j => if j = i then x else f j

/-- `f32::signum` (Rust): `-1.0` for negative values, `1.0` otherwise (`+0.0` included;
`NaN` does not arise in the exact-rational model). -/
def fsignum (x : ℚ) : ℚ := if x < 0 then -1 else 1

/-- The demodulator's rectifier `l * l * l.signum()` (`demodulator.rs` lines 87-88):
square-law magnitude with the sign of the input preserved. -/
def rectify (x : ℚ) : ℚ := x * x * fsignum x

/-- Per-sample bias-and-gate stage (`demodulator.rs` lines 59-72): add `bias`, zero the
result if it is strictly above `ceiling`, then zero it if it is strictly below `floor`. -/
def gateSample (x floor ceiling bias : ℚ) : ℚ :=
  let a := x + bias
  let a := if a > ceiling then 0 else a
  if a < floor then 0 else a

/-- The Linear distribution law (`demodulator.rs` lines 79-81):
`floor(harmonic_count * progress / DEMOD_BLOCK_SIZE)` computed over `f32`.  For the
ranges in use (`harmonic_count ≤ 512`, `progress < 1050`) the `f32` computation is
exact enough that the floor equals the rational floor, which on naturals is `Nat` division. -/
def linearTarget (harmonic_count progress : ℕ) : ℕ :=
  harmonic_count * progress / DEMOD_BLOCK_SIZE

/-- Rust inclusive range `a..=b` as the list `[a, a+1, …, b]` (empty when `b < a`). -/
def rangeIncl (a b : ℕ) : List ℕ := List.range' a (b + 1 - a)

/-- The index list visited by the demodulator's inner loop (`demodulator.rs` lines 84-86):
`prev_harmonic.max(harmonic_offset).max(1) ..= next_harmonic.min(MAX_HARMONICS)`. -/
def visitList (prev_harmonic harmonic_offset next_harmonic : ℕ) : List ℕ :=
  rangeIncl (Nat.max (Nat.max prev_harmonic harmonic_offset) 1)
    (Nat.min next_harmonic MAX_HARMONICS)

/-- State of `CVDemodulator` (`demodulator.rs` lines 5-11). -/
@[ext] structure CVDemodulator where
  progress : ℕ
  prev_harmonic : ℕ
  sample_count : ℕ
  working_amp_l : ℕ → ℚ
  working_amp_r : ℕ → ℚ

/-- `Default for CVDemodulator` (`demodulator.rs` lines 13-23). -/
def CVDemodulator.init : CVDemodulator :=
  ⟨0, 1, 0, fun _ => 0, fun _ => 0⟩

/-- `CVDemodulator::reset` (`demodulator.rs` lines 26-30): clears the scalar tracking
state but not the working accumulators. -/
def CVDemodulator.reset (s : CVDemodulator) : CVDemodulator :=
  { s with progress := 0, prev_harmonic := 1, sample_count := 0 }

/-- One iteration of the demodulator's inner harmonic loop (`demodulator.rs` lines
84-106) at index `harmonic`, folding the rectified channel values `lv`/`rv` into the
working accumulators.  (The source recomputes `l * l * l.signum()` on every iteration
from the loop-invariant gated sample; the rectification is hoisted to the caller here.)
A first visit (`harmonic ≠ prev_harmonic`) zeroes `sample_count` and overwrites the
accumulator; a repeat visit increments `sample_count` first and then computes
`(acc * sample_count + value) / sample_count` with the already-incremented count. -/
def visitStep (lv rv : ℚ) (s : CVDemodulator) (harmonic : ℕ) : CVDemodulator :=
  if harmonic ≠ s.prev_harmonic then
    { s with sample_count := 0,
             working_amp_l := updFn s.working_amp_l (harmonic - 1) lv,
             working_amp_r := updFn s.working_amp_r (harmonic - 1) rv,
             prev_harmonic := harmonic }
  else
    let n : ℕ := s.sample_count + 1
    { s with sample_count := n,
             working_amp_l := updFn s.working_amp_l (harmonic - 1)
               ((s.working_amp_l (harmonic - 1) * (n : ℚ) + lv) / (n : ℚ)),
             working_amp_r := updFn s.working_amp_r (harmonic - 1)
               ((s.working_amp_r (harmonic - 1) * (n : ℚ) + rv) / (n : ℚ)),
             prev_harmonic := harmonic }

/-- Demodulator fold state: the mutable `CVDemodulator` plus the `amps` result variable
(`demodulator.rs` line 49), which holds the most recent completed-block snapshot. -/
abbrev DemodAcc := CVDemodulator × Option ((ℕ → ℚ) × (ℕ → ℚ))

/-- Body of the per-input-sample loop of `submit_samples` (`demodulator.rs` lines 74-119)
after the bias/gate/rectify stage: visit every harmonic from
`prev_harmonic.max(harmonic_offset).max(1)` up to the clamped target, advance `progress`,
and on block completion snapshot the working arrays into the result and reset.
(The source increments `progress` and then tests `progress >= DEMOD_BLOCK_SIZE`; the
test here is the equivalent `DEMOD_BLOCK_SIZE <= progress + 1` on the pre-increment
value, with the increment materialized in whichever branch is taken.)
The distribution law enters as the already-computed base index `target s.progress`
(`linearTarget hc` for Linear; Exponential's `floor(exp(ln hc · p / 1050))` is likewise
some function of `progress`, and the safety results below hold for every such function). -/
def demodCore (target : ℕ → ℕ) (harmonic_offset : ℕ) (lv rv : ℚ) (acc : DemodAcc) :
    DemodAcc :=
  let next_harmonic := target acc.1.progress + harmonic_offset
  let s := (visitList acc.1.prev_harmonic harmonic_offset next_harmonic).foldl
    (visitStep lv rv) acc.1
  if DEMOD_BLOCK_SIZE ≤ s.progress + 1 then
    ({ s with progress := 0,
              working_amp_l := fun _ => 0,
              working_amp_r := fun _ => 0,
              prev_harmonic := 1 },
     some (s.working_amp_l, s.working_amp_r))
  else ({ s with progress := s.progress + 1 }, acc.2)

/-- One full iteration of the per-input-sample loop of `submit_samples`
(`demodulator.rs` lines 58-120) on the raw stereo sample `(xl, xr)`. -/
def sampleStep (target : ℕ → ℕ) (harmonic_offset : ℕ) (floor ceiling bias : ℚ)
    (acc : DemodAcc) (xl xr : ℚ) : DemodAcc :=
  let l := gateSample xl floor ceiling bias
  let r := gateSample xr floor ceiling bias
  demodCore target harmonic_offset (rectify l) (rectify r) acc

/-- The sample loop of `submit_samples`, walking both input channels in lockstep. -/
def submitLoop (target : ℕ → ℕ) (harmonic_offset : ℕ) (floor ceiling bias : ℚ) :
    DemodAcc → List ℚ → List ℚ → DemodAcc
  | acc, xl :: tl, xr :: tr =>
      submitLoop target harmonic_offset floor ceiling bias
        (sampleStep target harmonic_offset floor ceiling bias acc xl xr) tl tr
  | acc, _, _ => acc

/-- `CVDemodulator::submit_samples` (`demodulator.rs` lines 32-123).  `none` models the
`assert_eq!` panic on mismatched channel lengths.  The leading `progress ≥ BLOCK_SIZE`
recovery branch (lines 51-56) is included even though `progress` never exceeds the block
size between calls. -/
def CVDemodulator.submit_samples (target : ℕ → ℕ) (harmonic_offset : ℕ)
    (floor ceiling bias : ℚ) (s : CVDemodulator) (in_l in_r : List ℚ) :
    Option DemodAcc :=
  if in_l.length = in_r.length then
    let s := if DEMOD_BLOCK_SIZE ≤ s.progress then
        { s with progress := 0,
                 working_amp_l := fun _ => 0,
                 working_amp_r := fun _ => 0,
                 prev_harmonic := 1 }
      else s
    some (submitLoop target harmonic_offset floor ceiling bias (s, none) in_l in_r)
  else none

/-- Read the two channels of the snapshot (if any) at storage index `i`. -/
def snapAt (acc : DemodAcc) (i : ℕ) : Option (ℚ × ℚ) :=
  acc.2.map (fun p => (p.1 i, p.2 i))

/-! ## Oscillator bank (`additive_engine.rs`) -/

/-- `BasicGainMode` (per-harmonic gain law selector). -/
inductive BasicGainMode
  | Flat
  | Sawtooth

/-- `f32::clamp`/`f64::clamp` for `lo ≤ hi` (the only way it is invoked here). -/
def fclamp (x lo hi : ℚ) : ℚ := min (max x lo) hi

/-- Phase advance with wrap (`additive_engine.rs` lines 62-65): add the step, then
subtract `2.0` only when the result strictly exceeds `2.0`. -/
def phaseStep (phase step : ℚ) : ℚ :=
  if 2 < phase + step then phase + step - 2 else phase + step

/-- State of `AdditiveEngine` (`additive_engine.rs` lines 5-11). -/
@[ext] structure AdditiveEngine where
  phases : ℕ → ℚ
  amp_l : ℕ → ℚ
  amp_r : ℕ → ℚ
  last_amp_l : ℕ → ℚ
  last_amp_r : ℕ → ℚ

/-- `Default for AdditiveEngine` (`additive_engine.rs` lines 13-23). -/
def AdditiveEngine.init : AdditiveEngine :=
  ⟨fun _ => 0, fun _ => 0, fun _ => 0, fun _ => 0, fun _ => 0⟩

/-- `AdditiveEngine::submit_amplitudes` (`additive_engine.rs` lines 26-29): the two
`copy_from_slice` calls panic (`none`) unless each submitted slice has length 512. -/
def AdditiveEngine.submit_amplitudes (s : AdditiveEngine) (amp_l amp_r : List ℚ) :
    Option AdditiveEngine :=
  if amp_l.length = MAX_HARMONICS then
    if amp_r.length = MAX_HARMONICS then
      some { s with amp_l := fun i => amp_l.getD i 0, amp_r := fun i => amp_r.getD i 0 }
    else none
  else none

/-- `AdditiveEngine::reset_slew_tracking` (`additive_engine.rs` lines 31-34). -/
def AdditiveEngine.reset_slew_tracking (s : AdditiveEngine) : AdditiveEngine :=
  { s with last_amp_l := fun _ => 0, last_amp_r := fun _ => 0 }

/-- Body of the per-harmonic loop of `generate_samples` (`additive_engine.rs` lines
57-90) at harmonic `i`: advance and wrap the phase unconditionally; when the harmonic's
frequency lies in `[20, sample_rate/2]`, apply the slew limiter to both channel
amplitudes, store the applied amplitudes back into the slew state, and accumulate the
harmonic's contribution into the running stereo sample.  `sinTau φ` models
`sin(φ · 2π)` and `fsqrt` models `f32::sqrt`. -/
def harmonicStep (sinTau fsqrt : ℚ → ℚ) (i_freqs : ℕ → ℚ) (sample_rate : ℚ)
    (basic_gain_mode : BasicGainMode) (acc : AdditiveEngine × ℚ × ℚ) (i : ℕ) :
    AdditiveEngine × ℚ × ℚ :=
  let s := acc.1
  let freq := i_freqs i
  let step := freq / sample_rate
  let phase := phaseStep (s.phases i) step
  let s := { s with phases := updFn s.phases i phase }
  if 20 ≤ freq ∧ freq ≤ sample_rate / 2 then
    let v := sinTau phase
    let slew_threshold := 12.5 / sample_rate
    let amp_l := s.amp_l i
    let amp_r := s.amp_r i
    let last_amp_l := s.last_amp_l i
    let last_amp_r := s.last_amp_r i
    let delta_amp_l := amp_l - last_amp_l
    let delta_amp_r := amp_r - last_amp_r
    let amp_l := last_amp_l + fclamp delta_amp_l (-slew_threshold) slew_threshold
    let amp_r := last_amp_r + fclamp delta_amp_r (-slew_threshold) slew_threshold
    let s := { s with last_amp_l := updFn s.last_amp_l i amp_l,
                      last_amp_r := updFn s.last_amp_r i amp_r }
    let basic_gain := match basic_gain_mode with
      | BasicGainMode.Flat => (1 : ℚ)
      | BasicGainMode.Sawtooth => fsqrt (1 / ((i : ℚ) + 1))
    (s, acc.2.1 + v * amp_l * basic_gain, acc.2.2 + v * amp_r * basic_gain)
  else (s, acc.2)

/-- One output sample of `generate_samples` (`additive_engine.rs` lines 53-93): fold the
per-harmonic body over all 512 harmonics, starting from zero stereo accumulators. -/
def engineStep (sinTau fsqrt : ℚ → ℚ) (i_freqs : ℕ → ℚ) (sample_rate : ℚ)
    (basic_gain_mode : BasicGainMode) (s : AdditiveEngine) : AdditiveEngine × ℚ × ℚ :=
  (List.range MAX_HARMONICS).foldl
    (harmonicStep sinTau fsqrt i_freqs sample_rate basic_gain_mode) (s, 0, 0)

/-- The output loop of `generate_samples`: one `engineStep` per output position, with the
stereo sample accumulated (`+=`) into the caller's buffers. -/
def genLoop (sinTau fsqrt : ℚ → ℚ) (i_freqs : ℕ → ℚ) (sample_rate : ℚ)
    (basic_gain_mode : BasicGainMode) :
    AdditiveEngine → List ℚ → List ℚ → AdditiveEngine × List ℚ × List ℚ
  | s, xl :: tl, xr :: tr =>
      let st := engineStep sinTau fsqrt i_freqs sample_rate basic_gain_mode s
      let rest := genLoop sinTau fsqrt i_freqs sample_rate basic_gain_mode st.1 tl tr
      (rest.1, (xl + st.2.1) :: rest.2.1, (xr + st.2.2) :: rest.2.2)
  | s, l, r => (s, l, r)

/-- `AdditiveEngine::generate_samples` (`additive_engine.rs` lines 37-95).  `none`
models the `assert_eq!` panic on mismatched output buffer lengths. -/
def AdditiveEngine.generate_samples (sinTau fsqrt : ℚ → ℚ) (i_freqs : ℕ → ℚ)
    (sample_rate : ℚ) (basic_gain_mode : BasicGainMode) (s : AdditiveEngine)
    (out_l out_r : List ℚ) : Option (AdditiveEngine × List ℚ × List ℚ) :=
  if out_l.length = out_r.length then
    some (genLoop sinTau fsqrt i_freqs sample_rate basic_gain_mode s out_l out_r)
  else none

/-! ## Envelope follower (`envelope.rs`) -/

/-- State of `AREnvelope` (`envelope.rs` lines 3-11). -/
@[ext] structure AREnvelope where
  state : ℚ
  attack_coeff : ℚ
  release_coeff : ℚ
  releasing : Bool

/-- `#[derive(Default)]` for `AREnvelope`: zero coefficients and state, not releasing. -/
def AREnvelope.init : AREnvelope := ⟨0, 0, 0, false⟩

/-- `AREnvelope::reset` (`envelope.rs` lines 22-25). -/
def AREnvelope.reset (e : AREnvelope) : AREnvelope :=
  { e with state := 0, releasing := false }

/-- `AREnvelope::start_release` (`envelope.rs` lines 47-49): sets the flag only. -/
def AREnvelope.start_release (e : AREnvelope) : AREnvelope :=
  { e with releasing := true }

/-- `AREnvelope::is_releasing` (`envelope.rs` lines 51-53): the flag is set and the
state is still at least `0.001`. -/
def AREnvelope.is_releasing (e : AREnvelope) : Bool :=
  e.releasing && decide ((1 : ℚ)/1000 ≤ e.state)

/-- `AREnvelope::next_block` (`envelope.rs` lines 31-45): one-pole ramp toward 1
(attacking) or 0 (releasing), writing each new state into the block buffer. -/
def AREnvelope.next_block (e : AREnvelope) : ℕ → AREnvelope × List ℚ
  | 0 => (e, [])
  | n + 1 =>
      let target : ℚ := if e.releasing then 0 else 1
      let t := if e.releasing then e.release_coeff else e.attack_coeff
      let new := e.state * t + target * (1 - t)
      let rest := AREnvelope.next_block { e with state := new } n
      (rest.1, new :: rest.2)

/-! ## Voice (`voice.rs`) -/

/-- The staggered reset pattern `phases[i] = MAX_HARMONICS / (i + 1)`
(`voice.rs` lines 33-37). -/
def resetPhasesFn : ℕ → ℚ := fun i => (MAX_HARMONICS : ℚ) / ((i : ℚ) + 1)

/-- State of `AdditiveVoice` (`voice.rs` lines 10-16). -/
@[ext] structure AdditiveVoice where
  engine : AdditiveEngine
  envelope : AREnvelope
  current_midi_note : ℕ
  bend_value : ℚ
  notes_on : ℕ

/-- `Default for AdditiveVoice` (`voice.rs` lines 18-30): defaults plus `reset_phases`. -/
def AdditiveVoice.init : AdditiveVoice :=
  ⟨{ AdditiveEngine.init with phases := resetPhasesFn }, AREnvelope.init, 0, 1/2, 0⟩

/-- `AdditiveVoice::note_off` (`voice.rs` lines 47-52): saturating decrement, then
`start_release` whenever the post-decrement count is zero. -/
def AdditiveVoice.note_off (v : AdditiveVoice) : AdditiveVoice :=
  let n := v.notes_on - 1
  if n = 0 then { v with notes_on := n, envelope := v.envelope.start_release }
  else { v with notes_on := n }

/-- The sub-block loop of `AdditiveVoice::process` (`voice.rs` lines 90-117): split the
output range into chunks of at most 32 samples; per chunk pull an envelope block and a
freshly zeroed oscillator block, then accumulate `oscillator · envelope` into the
caller's buffers.  (The chunk buffers are zero-initialized and of equal length, so the
inner `generate_samples` length assertion cannot fire; the loop body is entered through
`genLoop` directly.) -/
def voiceLoop (sinTau fsqrt : ℚ → ℚ) (i_freqs : ℕ → ℚ) (sample_rate : ℚ)
    (basic_gain_mode : BasicGainMode) (env : AREnvelope) (eng : AdditiveEngine)
    (out_l out_r : List ℚ) : AREnvelope × AdditiveEngine × List ℚ × List ℚ :=
  if h : out_l = [] then (env, eng, out_l, out_r)
  else
    let envRes := env.next_block (Nat.min out_l.length 32)
    let genRes := genLoop sinTau fsqrt i_freqs sample_rate basic_gain_mode eng
      (List.replicate (Nat.min out_l.length 32) 0) (List.replicate (Nat.min out_l.length 32) 0)
    let mixed_l := List.zipWith (fun o s => o + s) (out_l.take (Nat.min out_l.length 32))
      (List.zipWith (fun b e => b * e) genRes.2.1 envRes.2)
    let mixed_r := List.zipWith (fun o s => o + s) (out_r.take (Nat.min out_l.length 32))
      (List.zipWith (fun b e => b * e) genRes.2.2 envRes.2)
    let rest := voiceLoop sinTau fsqrt i_freqs sample_rate basic_gain_mode envRes.1
      genRes.1 (out_l.drop (Nat.min out_l.length 32)) (out_r.drop (Nat.min out_l.length 32))
    (rest.1, rest.2.1, mixed_l ++ rest.2.2.1, mixed_r ++ rest.2.2.2)
termination_by out_l.length
decreasing_by
  have h1 : out_l.length ≠ 0 := fun hh => h (List.eq_nil_of_length_eq_zero hh)
  simp only [List.length_drop, Nat.min_def]
  split <;> omega

/-- `AdditiveVoice::process` (`voice.rs` lines 64-123).  Early-returns with everything
untouched unless a note is held or the envelope is audibly releasing; then asserts equal
buffer lengths (`none` on mismatch), derives the bent fundamental and the harmonic
frequency table, runs the sub-block loop, and finally resets phases and slew tracking if
the voice has just become fully silent.  `pow2 x` models `2.0f64.powf(x)`.  (The source
passes a `slew_limiting` flag on to `generate_samples`, whose signature in
`additive_engine.rs` does not take one; the flag is therefore accepted and unused here.) -/
def AdditiveVoice.process (sinTau fsqrt pow2 : ℚ → ℚ) (sample_rate : ℚ)
    (basic_gain_mode : BasicGainMode) (slew_limiting : Bool) (v : AdditiveVoice)
    (out_l out_r : List ℚ) : Option (AdditiveVoice × List ℚ × List ℚ) :=
  if 0 < v.notes_on ∨ v.envelope.is_releasing = true then
    if out_l.length = out_r.length then
      let note : ℚ := (v.current_midi_note : ℚ) + (fclamp v.bend_value 0 1 * 2 - 1) * 12
      let fundamental := pow2 ((note - 69) / 12) * 440
      let i_freqs : ℕ → ℚ := fun n => fundamental * ((n : ℚ) + 1)
      let res := voiceLoop sinTau fsqrt i_freqs sample_rate basic_gain_mode
        v.envelope v.engine out_l out_r
      let v1 := { v with envelope := res.1, engine := res.2.1 }
      let v2 := if v1.notes_on = 0 ∧ ¬(v1.envelope.is_releasing = true) then
          { v1 with engine :=
              AdditiveEngine.reset_slew_tracking { v1.engine with phases := resetPhasesFn } }
        else v1
      some (v2, res.2.2.1, res.2.2.2)
    else none
  else some (v, out_l, out_r)

/-! ## Helper lemmas: demodulator -/

/-- A biased sample inside `[floor, ceiling]` passes the gate unchanged. -/
lemma gate_in_range (x floor ceiling bias : ℚ) (h1 : floor ≤ x + bias)
    (h2 : x + bias ≤ ceiling) : gateSample x floor ceiling bias = x + bias := by
  simp only [gateSample, gt_iff_lt]
  rw [if_neg (not_lt.mpr h2), if_neg (not_lt.mpr h1)]

lemma mem_rangeIncl {h a b : ℕ} (hm : h ∈ rangeIncl a b) : a ≤ h ∧ h ≤ b := by
  unfold rangeIncl at hm
  rw [List.mem_range'_1] at hm
  omega

/-- Every index visited by the inner loop is between its `max`-clamped lower bound
and `MAX_HARMONICS`. -/
lemma visitList_bounds {h prev o next : ℕ} (hm : h ∈ visitList prev o next) :
    Nat.max (Nat.max prev o) 1 ≤ h ∧ h ≤ Nat.min next MAX_HARMONICS :=
  mem_rangeIncl hm

lemma visitStep_progress (lv rv : ℚ) (s : CVDemodulator) (h : ℕ) :
    (visitStep lv rv s h).progress = s.progress := by
  unfold visitStep; split <;> rfl

lemma visitStep_prev (lv rv : ℚ) (s : CVDemodulator) (h : ℕ) :
    (visitStep lv rv s h).prev_harmonic = h := by
  unfold visitStep; split <;> rfl

lemma visitStep_w0 (lv rv : ℚ) (s : CVDemodulator) (h : ℕ) (h2 : 2 ≤ h) :
    (visitStep lv rv s h).working_amp_l 0 = s.working_amp_l 0
      ∧ (visitStep lv rv s h).working_amp_r 0 = s.working_amp_r 0 := by
  have hne : (0 : ℕ) ≠ h - 1 := by omega
  unfold visitStep updFn
  split <;> simp [hne]

/-- Folding the inner loop over indices that are all `≥ 2` leaves storage index 0, the
progress counter untouched, and lands the `prev_harmonic` tracker at a value `≥ 2`
whenever it started there. -/
lemma foldl_visitStep_untouched (lv rv : ℚ) :
    ∀ (l : List ℕ) (s : CVDemodulator), (∀ h ∈ l, 2 ≤ h) →
      (l.foldl (visitStep lv rv) s).working_amp_l 0 = s.working_amp_l 0
        ∧ (l.foldl (visitStep lv rv) s).working_amp_r 0 = s.working_amp_r 0
        ∧ (l.foldl (visitStep lv rv) s).progress = s.progress
        ∧ (2 ≤ s.prev_harmonic → 2 ≤ (l.foldl (visitStep lv rv) s).prev_harmonic)
  | [], s, _ => by simp
  | h :: t, s, hall => by
      have h2 : 2 ≤ h := hall h (List.mem_cons_self h t)
      have ih := foldl_visitStep_untouched lv rv t (visitStep lv rv s h)
        (fun x hx => hall x (List.mem_cons_of_mem _ hx))
      have hw := visitStep_w0 lv rv s h h2
      refine ⟨?_, ?_, ?_, fun _ => ?_⟩
      · rw [List.foldl_cons, ih.1, hw.1]
      · rw [List.foldl_cons, ih.2.1, hw.2]
      · rw [List.foldl_cons, ih.2.2.1, visitStep_progress]
      · exact ih.2.2.2 (by rw [visitStep_prev]; exact h2)

/-- A mid-block demodulator sample step from a state whose `prev_harmonic` has moved
past harmonic 1: storage index 0 and the pending snapshot survive, progress advances. -/
lemma demodCore_mid (t : ℕ → ℕ) (o : ℕ) (lv rv : ℚ) (acc : DemodAcc)
    (hprev : 2 ≤ acc.1.prev_harmonic) (hprog : acc.1.progress + 1 < DEMOD_BLOCK_SIZE) :
    (demodCore t o lv rv acc).1.working_amp_l 0 = acc.1.working_amp_l 0
      ∧ (demodCore t o lv rv acc).1.working_amp_r 0 = acc.1.working_amp_r 0
      ∧ (demodCore t o lv rv acc).1.progress = acc.1.progress + 1
      ∧ 2 ≤ (demodCore t o lv rv acc).1.prev_harmonic
      ∧ (demodCore t o lv rv acc).2 = acc.2 := by
  have hall : ∀ h ∈ visitList acc.1.prev_harmonic o (t acc.1.progress + o), 2 ≤ h := by
    intro h hm
    have := (visitList_bounds hm).1
    have hle : acc.1.prev_harmonic ≤ Nat.max (Nat.max acc.1.prev_harmonic o) 1 :=
      le_trans (Nat.le_max_left _ o) (Nat.le_max_left _ 1)
    omega
  have hfold := foldl_visitStep_untouched lv rv _ acc.1 hall
  unfold demodCore
  rw [if_neg (show ¬ (DEMOD_BLOCK_SIZE ≤ (List.foldl (visitStep lv rv) acc.1
      (visitList acc.1.prev_harmonic o (t acc.1.progress + o))).progress + 1) by
    rw [hfold.2.2.1]; omega)]
  refine ⟨?_, ?_, ?_, ?_, rfl⟩
  · exact hfold.1
  · exact hfold.2.1
  · exact congrArg (fun x => x + 1) hfold.2.2.1
  · exact hfold.2.2.2 hprev

/-- The block-completing demodulator sample step: the emitted snapshot's storage
index 0 carries exactly the working accumulator values from before the step. -/
lemma demodCore_emit (t : ℕ → ℕ) (o : ℕ) (lv rv : ℚ) (acc : DemodAcc)
    (hprev : 2 ≤ acc.1.prev_harmonic) (hprog : acc.1.progress + 1 = DEMOD_BLOCK_SIZE) :
    snapAt (demodCore t o lv rv acc) 0
      = some (acc.1.working_amp_l 0, acc.1.working_amp_r 0) := by
  have hall : ∀ h ∈ visitList acc.1.prev_harmonic o (t acc.1.progress + o), 2 ≤ h := by
    intro h hm
    have := (visitList_bounds hm).1
    have hle : acc.1.prev_harmonic ≤ Nat.max (Nat.max acc.1.prev_harmonic o) 1 :=
      le_trans (Nat.le_max_left _ o) (Nat.le_max_left _ 1)
    omega
  have hfold := foldl_visitStep_untouched lv rv _ acc.1 hall
  unfold demodCore
  rw [if_pos (show DEMOD_BLOCK_SIZE ≤ (List.foldl (visitStep lv rv) acc.1
      (visitList acc.1.prev_harmonic o (t acc.1.progress + o))).progress + 1 by
    rw [hfold.2.2.1]; omega)]
  simp [snapAt, hfold.1, hfold.2.1]

/-- Running the rest of a block (from a state past harmonic 1) to completion returns a
snapshot whose storage index 0 holds the accumulators as they stood. -/
lemma submitLoop_tail (t : ℕ → ℕ) (o : ℕ) (fl cl b v : ℚ) :
    ∀ (n : ℕ) (acc : DemodAcc), 1 ≤ n → 2 ≤ acc.1.prev_harmonic →
      acc.1.progress + n = DEMOD_BLOCK_SIZE →
      snapAt (submitLoop t o fl cl b acc (List.replicate n v) (List.replicate n v)) 0
        = some (acc.1.working_amp_l 0, acc.1.working_amp_r 0) := by
  intro n
  induction n with
  | zero => omega
  | succ n ih =>
      intro acc _ hprev hprog
      rw [List.replicate_succ]
      show snapAt (submitLoop t o fl cl b
        (sampleStep t o fl cl b acc v v) (List.replicate n v) (List.replicate n v)) 0 = _
      rcases Nat.eq_zero_or_pos n with hn0 | hn1
      · subst hn0
        show snapAt (sampleStep t o fl cl b acc v v) 0 = _
        exact demodCore_emit t o _ _ acc hprev (by omega)
      · have hmid := demodCore_mid t o (rectify (gateSample v fl cl b))
          (rectify (gateSample v fl cl b)) acc hprev (by omega)
        have heq : sampleStep t o fl cl b acc v v
            = demodCore t o (rectify (gateSample v fl cl b))
                (rectify (gateSample v fl cl b)) acc := rfl
        have := ih (sampleStep t o fl cl b acc v v) hn1
          (by rw [heq]; exact hmid.2.2.2.1)
          (by rw [heq, hmid.2.2.1] at *; omega)
        rw [this, heq, hmid.1, hmid.2.1]

/-- Splitting a constant-input run of the sample loop. -/
lemma submitLoop_replicate_add (t : ℕ → ℕ) (o : ℕ) (fl cl b v : ℚ) (m n : ℕ) :
    ∀ acc : DemodAcc,
      submitLoop t o fl cl b acc (List.replicate (m + n) v) (List.replicate (m + n) v)
        = submitLoop t o fl cl b
            (submitLoop t o fl cl b acc (List.replicate m v) (List.replicate m v))
            (List.replicate n v) (List.replicate n v) := by
  induction m with
  | zero => intro acc; rw [Nat.zero_add]; rfl
  | succ m ih =>
      intro acc
      rw [Nat.succ_add]
      rw [show List.replicate (m + n + 1) v = v :: List.replicate (m + n) v from rfl]
      rw [show List.replicate (m + 1) v = v :: List.replicate m v from rfl]
      show submitLoop t o fl cl b (sampleStep t o fl cl b acc v v)
          (List.replicate (m + n) v) (List.replicate (m + n) v) = _
      rw [ih (sampleStep t o fl cl b acc v v)]
      rfl

/-- Unfolding equations for the sample loop. -/
lemma submitLoop_cons (t : ℕ → ℕ) (o : ℕ) (fl cl b : ℚ) (acc : DemodAcc) (x y : ℚ)
    (tl tr : List ℚ) :
    submitLoop t o fl cl b acc (x :: tl) (y :: tr)
      = submitLoop t o fl cl b (sampleStep t o fl cl b acc x y) tl tr := rfl

/-- Repeat visit to harmonic 1 (`harmonic = prev_harmonic = 1`): the else branch of the
inner loop, with the count incremented before it is used on both sides of the division. -/
lemma visitStep_repeat1 (lv rv : ℚ) (p sc : ℕ) (wl wr : ℕ → ℚ) :
    visitStep lv rv (⟨p, 1, sc, wl, wr⟩ : CVDemodulator) 1
      = (⟨p, 1, sc + 1,
          updFn wl 0 ((wl 0 * ((sc + 1 : ℕ) : ℚ) + lv) / ((sc + 1 : ℕ) : ℚ)),
          updFn wr 0 ((wr 0 * ((sc + 1 : ℕ) : ℚ) + rv) / ((sc + 1 : ℕ) : ℚ))⟩
        : CVDemodulator) := by
  unfold visitStep
  rw [if_neg (show ¬ ((1:ℕ) ≠ 1) from by decide)]

/-- First visit moving from harmonic 1 to harmonic 2: the then branch of the inner loop. -/
lemma visitStep_first2 (lv rv : ℚ) (p sc : ℕ) (wl wr : ℕ → ℚ) :
    visitStep lv rv (⟨p, 1, sc, wl, wr⟩ : CVDemodulator) 2
      = (⟨p, 2, 0, updFn wl 1 lv, updFn wr 1 rv⟩ : CVDemodulator) := by
  unfold visitStep
  rw [if_pos (show (2:ℕ) ≠ 1 from by decide)]

/-- A mid-block sample step whose visit range is empty: only `progress` advances. -/
lemma stepEmpty (lv rv : ℚ) (p sc : ℕ) (wl wr : ℕ → ℚ) (am : Option ((ℕ → ℚ) × (ℕ → ℚ)))
    (hv : visitList 1 0 (linearTarget 512 p + 0) = []) (hp : p + 1 < 1050) :
    demodCore (linearTarget 512) 0 lv rv ((⟨p, 1, sc, wl, wr⟩ : CVDemodulator), am)
      = ((⟨p + 1, 1, sc, wl, wr⟩ : CVDemodulator), am) := by
  unfold demodCore
  dsimp only
  rw [hv, List.foldl_nil]
  rw [if_neg (show ¬ (DEMOD_BLOCK_SIZE ≤ p + 1) from by
    show ¬ (1050 ≤ p + 1); omega)]

/-- A mid-block sample step visiting exactly harmonic 1 while `prev_harmonic = 1`. -/
lemma stepOne (lv rv : ℚ) (p sc : ℕ) (wl wr : ℕ → ℚ) (am : Option ((ℕ → ℚ) × (ℕ → ℚ)))
    (hv : visitList 1 0 (linearTarget 512 p + 0) = [1]) (hp : p + 1 < 1050) :
    demodCore (linearTarget 512) 0 lv rv ((⟨p, 1, sc, wl, wr⟩ : CVDemodulator), am)
      = ((⟨p + 1, 1, sc + 1,
          updFn wl 0 ((wl 0 * ((sc + 1 : ℕ) : ℚ) + lv) / ((sc + 1 : ℕ) : ℚ)),
          updFn wr 0 ((wr 0 * ((sc + 1 : ℕ) : ℚ) + rv) / ((sc + 1 : ℕ) : ℚ))⟩
        : CVDemodulator), am) := by
  unfold demodCore
  dsimp only
  rw [hv, List.foldl_cons, List.foldl_nil, visitStep_repeat1]
  rw [if_neg (show ¬ (DEMOD_BLOCK_SIZE ≤ p + 1) from by
    show ¬ (1050 ≤ p + 1); omega)]

/-- A mid-block sample step visiting harmonics 1 and 2 while `prev_harmonic = 1`. -/
lemma stepOneTwo (lv rv : ℚ) (p sc : ℕ) (wl wr : ℕ → ℚ) (am : Option ((ℕ → ℚ) × (ℕ → ℚ)))
    (hv : visitList 1 0 (linearTarget 512 p + 0) = [1, 2]) (hp : p + 1 < 1050) :
    demodCore (linearTarget 512) 0 lv rv ((⟨p, 1, sc, wl, wr⟩ : CVDemodulator), am)
      = ((⟨p + 1, 2, 0,
          updFn (updFn wl 0 ((wl 0 * ((sc + 1 : ℕ) : ℚ) + lv) / ((sc + 1 : ℕ) : ℚ))) 1 lv,
          updFn (updFn wr 0 ((wr 0 * ((sc + 1 : ℕ) : ℚ) + rv) / ((sc + 1 : ℕ) : ℚ))) 1 rv⟩
        : CVDemodulator), am) := by
  unfold demodCore
  dsimp only
  rw [hv, List.foldl_cons, List.foldl_cons, List.foldl_nil, visitStep_repeat1,
    visitStep_first2]
  rw [if_neg (show ¬ (DEMOD_BLOCK_SIZE ≤ p + 1) from by
    show ¬ (1050 ≤ p + 1); omega)]

/-- Unfolding `sampleStep` into the gate/rectify stage followed by the core step. -/
lemma sampleStep_eq (t : ℕ → ℕ) (o : ℕ) (fl cl b xl xr : ℚ) (acc : DemodAcc) :
    sampleStep t o fl cl b acc xl xr
      = demodCore t o (rectify (gateSample xl fl cl b))
          (rectify (gateSample xr fl cl b)) acc := rfl

/-- The first six samples of a Linear / `harmonic_count = 512` / zero-offset block on a
constant in-range input: the visit range is empty at progress 0-2, harmonic 1 is visited
at progress 3, 4 and 5 (each time through the repeat-visit branch, since `prev_harmonic`
starts at 1), accumulating `(((r·2+r)/2)·3+r)/3 = 11/6·r`; at progress 5 the loop moves
on to harmonic 2. -/
lemma six_head (fl cl b v : ℚ) (h1 : fl ≤ v + b) (h2 : v + b ≤ cl) :
    (submitLoop (linearTarget 512) 0 fl cl b (CVDemodulator.init, none)
        (List.replicate 6 v) (List.replicate 6 v)).1.progress = 6
      ∧ (submitLoop (linearTarget 512) 0 fl cl b (CVDemodulator.init, none)
          (List.replicate 6 v) (List.replicate 6 v)).1.prev_harmonic = 2
      ∧ (submitLoop (linearTarget 512) 0 fl cl b (CVDemodulator.init, none)
          (List.replicate 6 v) (List.replicate 6 v)).1.working_amp_l 0
        = 11/6 * rectify (v + b)
      ∧ (submitLoop (linearTarget 512) 0 fl cl b (CVDemodulator.init, none)
          (List.replicate 6 v) (List.replicate 6 v)).1.working_amp_r 0
        = 11/6 * rectify (v + b) := by
  have hg : gateSample v fl cl b = v + b := gate_in_range v fl cl b h1 h2
  have hrun : submitLoop (linearTarget 512) 0 fl cl b (CVDemodulator.init, none)
      (List.replicate 6 v) (List.replicate 6 v)
      = ((⟨6, 2, 0,
          updFn (updFn (updFn (updFn (fun _ => 0) 0
            ((((fun _ => (0:ℚ)) 0) * ((0 + 1 : ℕ) : ℚ) + rectify (v + b)) / ((0 + 1 : ℕ) : ℚ))) 0
            ((updFn (fun _ => 0) 0
              ((((fun _ => (0:ℚ)) 0) * ((0 + 1 : ℕ) : ℚ) + rectify (v + b)) / ((0 + 1 : ℕ) : ℚ)) 0
                * ((1 + 1 : ℕ) : ℚ) + rectify (v + b)) / ((1 + 1 : ℕ) : ℚ))) 0
            ((updFn (updFn (fun _ => 0) 0
              ((((fun _ => (0:ℚ)) 0) * ((0 + 1 : ℕ) : ℚ) + rectify (v + b)) / ((0 + 1 : ℕ) : ℚ))) 0
              ((updFn (fun _ => 0) 0
                ((((fun _ => (0:ℚ)) 0) * ((0 + 1 : ℕ) : ℚ) + rectify (v + b)) / ((0 + 1 : ℕ) : ℚ)) 0
                  * ((1 + 1 : ℕ) : ℚ) + rectify (v + b)) / ((1 + 1 : ℕ) : ℚ)) 0
                * ((2 + 1 : ℕ) : ℚ) + rectify (v + b)) / ((2 + 1 : ℕ) : ℚ))) 1 (rectify (v + b)),
          updFn (updFn (updFn (updFn (fun _ => 0) 0
            ((((fun _ => (0:ℚ)) 0) * ((0 + 1 : ℕ) : ℚ) + rectify (v + b)) / ((0 + 1 : ℕ) : ℚ))) 0
            ((updFn (fun _ => 0) 0
              ((((fun _ => (0:ℚ)) 0) * ((0 + 1 : ℕ) : ℚ) + rectify (v + b)) / ((0 + 1 : ℕ) : ℚ)) 0
                * ((1 + 1 : ℕ) : ℚ) + rectify (v + b)) / ((1 + 1 : ℕ) : ℚ))) 0
            ((updFn (updFn (fun _ => 0) 0
              ((((fun _ => (0:ℚ)) 0) * ((0 + 1 : ℕ) : ℚ) + rectify (v + b)) / ((0 + 1 : ℕ) : ℚ))) 0
              ((updFn (fun _ => 0) 0
                ((((fun _ => (0:ℚ)) 0) * ((0 + 1 : ℕ) : ℚ) + rectify (v + b)) / ((0 + 1 : ℕ) : ℚ)) 0
                  * ((1 + 1 : ℕ) : ℚ) + rectify (v + b)) / ((1 + 1 : ℕ) : ℚ)) 0
                * ((2 + 1 : ℕ) : ℚ) + rectify (v + b)) / ((2 + 1 : ℕ) : ℚ))) 1 (rectify (v + b))⟩
        : CVDemodulator), none) := by
    rw [show List.replicate 6 v = [v, v, v, v, v, v] from rfl]
    rw [show (CVDemodulator.init : CVDemodulator) = ⟨0, 1, 0, fun _ => 0, fun _ => 0⟩
      from rfl]
    rw [submitLoop_cons, sampleStep_eq, hg,
      stepEmpty (rectify (v + b)) (rectify (v + b)) 0 0 _ _ none (by decide) (by omega)]
    rw [submitLoop_cons, sampleStep_eq, hg,
      stepEmpty (rectify (v + b)) (rectify (v + b)) 1 0 _ _ none (by decide) (by omega)]
    rw [submitLoop_cons, sampleStep_eq, hg,
      stepEmpty (rectify (v + b)) (rectify (v + b)) 2 0 _ _ none (by decide) (by omega)]
    rw [submitLoop_cons, sampleStep_eq, hg,
      stepOne (rectify (v + b)) (rectify (v + b)) 3 0 _ _ none (by decide) (by omega)]
    rw [submitLoop_cons, sampleStep_eq, hg,
      stepOne (rectify (v + b)) (rectify (v + b)) 4 1 _ _ none (by decide) (by omega)]
    rw [submitLoop_cons, sampleStep_eq, hg,
      stepOneTwo (rectify (v + b)) (rectify (v + b)) 5 2 _ _ none (by decide) (by omega)]
    rfl
  rw [hrun]
  refine ⟨rfl, rfl, ?_, ?_⟩ <;>
  · dsimp only
    norm_num [updFn]
    ring

/-- Full constant-input analysis block, Linear distribution, `harmonic_count = 512`,
zero offset, from a freshly reset demodulator: the call returns, and the emitted
snapshot's harmonic 1 (storage index 0) holds `11/6 · rectify (v + bias)` on both
channels. -/
lemma submit_const (fl cl b v : ℚ) (h1 : fl ≤ v + b) (h2 : v + b ≤ cl) :
    CVDemodulator.submit_samples (linearTarget 512) 0 fl cl b
        (CVDemodulator.reset CVDemodulator.init)
        (List.replicate DEMOD_BLOCK_SIZE v) (List.replicate DEMOD_BLOCK_SIZE v)
      = some (submitLoop (linearTarget 512) 0 fl cl b (CVDemodulator.init, none)
          (List.replicate DEMOD_BLOCK_SIZE v) (List.replicate DEMOD_BLOCK_SIZE v))
    ∧ snapAt (submitLoop (linearTarget 512) 0 fl cl b (CVDemodulator.init, none)
          (List.replicate DEMOD_BLOCK_SIZE v) (List.replicate DEMOD_BLOCK_SIZE v)) 0
      = some (11/6 * rectify (v + b), 11/6 * rectify (v + b)) := by
  constructor
  · rw [CVDemodulator.submit_samples, if_pos (by rw [List.length_replicate])]
    rfl
  · have hsix := six_head fl cl b v h1 h2
    rw [show List.replicate DEMOD_BLOCK_SIZE v = List.replicate (6 + 1044) v from rfl,
      submitLoop_replicate_add (linearTarget 512) 0 fl cl b v 6 1044]
    rw [submitLoop_tail (linearTarget 512) 0 fl cl b v 1044 _ (by omega)
      (by rw [hsix.2.1]) (by rw [hsix.1]; rfl)]
    rw [hsix.2.2.1, hsix.2.2.2]

/-! ## Helper lemmas: oscillator bank -/

/-- The per-harmonic body at index `i` leaves every component at any other index `j`
unchanged. -/
lemma harmonicStep_other (sinTau fsqrt : ℚ → ℚ) (i_freqs : ℕ → ℚ) (sample_rate : ℚ)
    (gm : BasicGainMode) (acc : AdditiveEngine × ℚ × ℚ) (i j : ℕ) (hij : i ≠ j) :
    (harmonicStep sinTau fsqrt i_freqs sample_rate gm acc i).1.phases j = acc.1.phases j
      ∧ (harmonicStep sinTau fsqrt i_freqs sample_rate gm acc i).1.last_amp_l j
        = acc.1.last_amp_l j
      ∧ (harmonicStep sinTau fsqrt i_freqs sample_rate gm acc i).1.last_amp_r j
        = acc.1.last_amp_r j
      ∧ (harmonicStep sinTau fsqrt i_freqs sample_rate gm acc i).1.amp_l j = acc.1.amp_l j
      ∧ (harmonicStep sinTau fsqrt i_freqs sample_rate gm acc i).1.amp_r j
        = acc.1.amp_r j := by
  have hji : ¬ (j = i) := fun hh => hij hh.symm
  unfold harmonicStep
  dsimp only
  split <;> simp [updFn, hji]

/-- The per-harmonic body at index `i`: the phase always advances through `phaseStep`;
the slew state at `i` is updated through the clamp exactly when the harmonic's frequency
lies in `[20, sample_rate/2]`, and is untouched otherwise; the target amplitudes are
never written. -/
lemma harmonicStep_self (sinTau fsqrt : ℚ → ℚ) (i_freqs : ℕ → ℚ) (sample_rate : ℚ)
    (gm : BasicGainMode) (acc : AdditiveEngine × ℚ × ℚ) (i : ℕ) :
    (harmonicStep sinTau fsqrt i_freqs sample_rate gm acc i).1.phases i
        = phaseStep (acc.1.phases i) (i_freqs i / sample_rate)
      ∧ (harmonicStep sinTau fsqrt i_freqs sample_rate gm acc i).1.last_amp_l i
        = (if 20 ≤ i_freqs i ∧ i_freqs i ≤ sample_rate / 2 then
            acc.1.last_amp_l i + fclamp (acc.1.amp_l i - acc.1.last_amp_l i)
              (-(12.5 / sample_rate)) (12.5 / sample_rate)
          else acc.1.last_amp_l i)
      ∧ (harmonicStep sinTau fsqrt i_freqs sample_rate gm acc i).1.last_amp_r i
        = (if 20 ≤ i_freqs i ∧ i_freqs i ≤ sample_rate / 2 then
            acc.1.last_amp_r i + fclamp (acc.1.amp_r i - acc.1.last_amp_r i)
              (-(12.5 / sample_rate)) (12.5 / sample_rate)
          else acc.1.last_amp_r i)
      ∧ (harmonicStep sinTau fsqrt i_freqs sample_rate gm acc i).1.amp_l i = acc.1.amp_l i
      ∧ (harmonicStep sinTau fsqrt i_freqs sample_rate gm acc i).1.amp_r i
        = acc.1.amp_r i := by
  unfold harmonicStep
  dsimp only
  split
  next hc => simp [updFn, hc]
  next hc => simp [updFn, hc]

/-- Folding the per-harmonic body over a list not containing `j` leaves every component
at `j` unchanged. -/
lemma foldl_harmonicStep_other (sinTau fsqrt : ℚ → ℚ) (i_freqs : ℕ → ℚ)
    (sample_rate : ℚ) (gm : BasicGainMode) :
    ∀ (l : List ℕ) (acc : AdditiveEngine × ℚ × ℚ) (j : ℕ), j ∉ l →
      (l.foldl (harmonicStep sinTau fsqrt i_freqs sample_rate gm) acc).1.phases j
          = acc.1.phases j
        ∧ (l.foldl (harmonicStep sinTau fsqrt i_freqs sample_rate gm) acc).1.last_amp_l j
          = acc.1.last_amp_l j
        ∧ (l.foldl (harmonicStep sinTau fsqrt i_freqs sample_rate gm) acc).1.last_amp_r j
          = acc.1.last_amp_r j
        ∧ (l.foldl (harmonicStep sinTau fsqrt i_freqs sample_rate gm) acc).1.amp_l j
          = acc.1.amp_l j
        ∧ (l.foldl (harmonicStep sinTau fsqrt i_freqs sample_rate gm) acc).1.amp_r j
          = acc.1.amp_r j
  | [], acc, j, _ => ⟨rfl, rfl, rfl, rfl, rfl⟩
  | i :: t, acc, j, hj => by
      have hji : i ≠ j := fun hh => hj (hh ▸ List.mem_cons_self i t)
      have hjt : j ∉ t := fun hh => hj (List.mem_cons_of_mem i hh)
      have hhead := harmonicStep_other sinTau fsqrt i_freqs sample_rate gm acc i j hji
      have ih := foldl_harmonicStep_other sinTau fsqrt i_freqs sample_rate gm t
        (harmonicStep sinTau fsqrt i_freqs sample_rate gm acc i) j hjt
      rw [List.foldl_cons]
      exact ⟨ih.1.trans hhead.1, ih.2.1.trans hhead.2.1, ih.2.2.1.trans hhead.2.2.1,
        ih.2.2.2.1.trans hhead.2.2.2.1, ih.2.2.2.2.trans hhead.2.2.2.2⟩

/-- Folding the per-harmonic body over a duplicate-free list containing `j`: the
components at `j` are produced by a single application of the body to the state as it
stood when `j` was reached, whose `j`-components equal the initial ones. -/
lemma foldl_harmonicStep_self (sinTau fsqrt : ℚ → ℚ) (i_freqs : ℕ → ℚ)
    (sample_rate : ℚ) (gm : BasicGainMode) :
    ∀ (l : List ℕ) (acc : AdditiveEngine × ℚ × ℚ) (j : ℕ), j ∈ l → l.Nodup →
      (l.foldl (harmonicStep sinTau fsqrt i_freqs sample_rate gm) acc).1.phases j
          = phaseStep (acc.1.phases j) (i_freqs j / sample_rate)
        ∧ (l.foldl (harmonicStep sinTau fsqrt i_freqs sample_rate gm) acc).1.last_amp_l j
          = (if 20 ≤ i_freqs j ∧ i_freqs j ≤ sample_rate / 2 then
              acc.1.last_amp_l j + fclamp (acc.1.amp_l j - acc.1.last_amp_l j)
                (-(12.5 / sample_rate)) (12.5 / sample_rate)
            else acc.1.last_amp_l j)
        ∧ (l.foldl (harmonicStep sinTau fsqrt i_freqs sample_rate gm) acc).1.last_amp_r j
          = (if 20 ≤ i_freqs j ∧ i_freqs j ≤ sample_rate / 2 then
              acc.1.last_amp_r j + fclamp (acc.1.amp_r j - acc.1.last_amp_r j)
                (-(12.5 / sample_rate)) (12.5 / sample_rate)
            else acc.1.last_amp_r j)
  | [], _, j, hj, _ => absurd hj (List.not_mem_nil j)
  | i :: t, acc, j, hj, hnd => by
      rcases List.mem_cons.mp hj with hji | hjt
      · subst hji
        have hjt : j ∉ t := (List.nodup_cons.mp hnd).1
        have hhead := harmonicStep_self sinTau fsqrt i_freqs sample_rate gm acc j
        have ih := foldl_harmonicStep_other sinTau fsqrt i_freqs sample_rate gm t
          (harmonicStep sinTau fsqrt i_freqs sample_rate gm acc j) j hjt
        rw [List.foldl_cons]
        exact ⟨ih.1.trans hhead.1, ih.2.1.trans hhead.2.1, ih.2.2.1.trans hhead.2.2.1⟩

      · have hij : i ≠ j := fun hh => (List.nodup_cons.mp hnd).1 (hh ▸ hjt)
        have hhead := harmonicStep_other sinTau fsqrt i_freqs sample_rate gm acc i j hij
        have ih := foldl_harmonicStep_self sinTau fsqrt i_freqs sample_rate gm t
          (harmonicStep sinTau fsqrt i_freqs sample_rate gm acc i) j hjt
          (List.nodup_cons.mp hnd).2
        rw [List.foldl_cons]
        refine ⟨?_, ?_, ?_⟩
        · rw [ih.1, hhead.1]
        · rw [ih.2.1, hhead.2.1, hhead.2.2.2.1]
        · rw [ih.2.2, hhead.2.2.1, hhead.2.2.2.2]

/-- Per-sample, per-harmonic characterization of `engineStep` (one output sample of
`generate_samples`) at every harmonic index `j < 512`. -/
lemma engineStep_spec (sinTau fsqrt : ℚ → ℚ) (i_freqs : ℕ → ℚ) (sample_rate : ℚ)
    (gm : BasicGainMode) (s : AdditiveEngine) (j : ℕ) (hj : j < MAX_HARMONICS) :
    (engineStep sinTau fsqrt i_freqs sample_rate gm s).1.phases j
        = phaseStep (s.phases j) (i_freqs j / sample_rate)
      ∧ (engineStep sinTau fsqrt i_freqs sample_rate gm s).1.last_amp_l j
        = (if 20 ≤ i_freqs j ∧ i_freqs j ≤ sample_rate / 2 then
            s.last_amp_l j + fclamp (s.amp_l j - s.last_amp_l j)
              (-(12.5 / sample_rate)) (12.5 / sample_rate)
          else s.last_amp_l j)
      ∧ (engineStep sinTau fsqrt i_freqs sample_rate gm s).1.last_amp_r j
        = (if 20 ≤ i_freqs j ∧ i_freqs j ≤ sample_rate / 2 then
            s.last_amp_r j + fclamp (s.amp_r j - s.last_amp_r j)
              (-(12.5 / sample_rate)) (12.5 / sample_rate)
          else s.last_amp_r j) := by
  unfold engineStep
  exact foldl_harmonicStep_self sinTau fsqrt i_freqs sample_rate gm
    (List.range MAX_HARMONICS) (s, 0, 0) j (List.mem_range.mpr hj) (List.nodup_range _)

/-- `engineStep` does not touch indices at or beyond `MAX_HARMONICS`. -/
lemma engineStep_out (sinTau fsqrt : ℚ → ℚ) (i_freqs : ℕ → ℚ) (sample_rate : ℚ)
    (gm : BasicGainMode) (s : AdditiveEngine) (j : ℕ) (hj : MAX_HARMONICS ≤ j) :
    (engineStep sinTau fsqrt i_freqs sample_rate gm s).1.last_amp_l j = s.last_amp_l j
      ∧ (engineStep sinTau fsqrt i_freqs sample_rate gm s).1.last_amp_r j
        = s.last_amp_r j := by
  unfold engineStep
  have h := foldl_harmonicStep_other sinTau fsqrt i_freqs sample_rate gm
    (List.range MAX_HARMONICS) (s, 0, 0) j
    (fun hh => absurd (List.mem_range.mp hh) (by omega))
  exact ⟨h.2.1, h.2.2.1⟩

/-- The clamp against a symmetric nonnegative threshold is bounded in magnitude. -/
lemma abs_fclamp_le (x t : ℚ) (ht : 0 ≤ t) : |fclamp x (-t) t| ≤ t := by
  unfold fclamp
  rw [abs_le]
  constructor
  · exact le_min (le_max_right x (-t)) (by linarith)
  · exact min_le_right _ t

/-! ## Claim theorems -/

/-- C1 (amended): for every value v on both input channels such that v + bias lies
within [floor, ceiling], submitting a constant signal of value v for one full analysis
block (1050 samples) to a freshly reset CVDemodulator with Linear distribution,
harmonicCount = 512 and harmonicOffset = 0 returns Some snapshot at block completion
whose harmonic-1 amplitude (storage index 0) equals exactly
`11/6 · (v+bias)²·sign(v+bias)` on each channel: the rectifier in the code is the
square-law `l·l·signum l` (not cubed), and the repeat-visit update divides by the
already-incremented count, so the three visits to harmonic 1 accumulate
`r·(1 + 1/2 + 1/3) = 11/6·r` instead of `r`. -/
theorem C1_constant_block_harmonic1 (v floor ceiling bias : ℚ)
    (h1 : floor ≤ v + bias) (h2 : v + bias ≤ ceiling) :
    ∃ acc : DemodAcc,
      CVDemodulator.submit_samples (linearTarget 512) 0 floor ceiling bias
          (CVDemodulator.reset CVDemodulator.init)
          (List.replicate DEMOD_BLOCK_SIZE v) (List.replicate DEMOD_BLOCK_SIZE v)
        = some acc
      ∧ snapAt acc 0 = some (11/6 * rectify (v + bias), 11/6 * rectify (v + bias)) := by
  obtain ⟨hA, hB⟩ := submit_const floor ceiling bias v h1 h2
  exact ⟨_, hA, hB⟩

/-- Witness for C1 at `v = 1`, `floor = -2`, `ceiling = 2`, `bias = 0`. -/
theorem C1_witness :
    ∃ acc : DemodAcc,
      CVDemodulator.submit_samples (linearTarget 512) 0 (-2) 2 0
          (CVDemodulator.reset CVDemodulator.init)
          (List.replicate DEMOD_BLOCK_SIZE 1) (List.replicate DEMOD_BLOCK_SIZE 1)
        = some acc
      ∧ snapAt acc 0 = some (11/6 * rectify (1 + 0), 11/6 * rectify (1 + 0)) :=
  C1_constant_block_harmonic1 1 (-2) 2 0 (by norm_num) (by norm_num)

/-- Counterexample to C1 as stated: at `v = 1`, `bias = 0`, `floor = -2`, `ceiling = 2`
the claim predicts a harmonic-1 snapshot of `(1+0)³·sign(1+0) = 1` on each channel, but
the code produces `11/6`. -/
theorem C1_counterexample :
    ¬ (∃ acc : DemodAcc,
        CVDemodulator.submit_samples (linearTarget 512) 0 (-2) 2 0
            (CVDemodulator.reset CVDemodulator.init)
            (List.replicate DEMOD_BLOCK_SIZE 1) (List.replicate DEMOD_BLOCK_SIZE 1)
          = some acc
        ∧ snapAt acc 0 = some (1, 1)) := by
  rintro ⟨acc, hA, hB⟩
  obtain ⟨hA', hB'⟩ := submit_const (-2) 2 0 1 (by norm_num) (by norm_num)
  rw [hA] at hA'
  rw [Option.some.injEq] at hA'
  rw [← hA'] at hB'
  rw [hB] at hB'
  rw [Option.some.injEq, Prod.mk.injEq] at hB'
  have h1 : (1:ℚ) = 11/6 * rectify (1 + 0) := hB'.1
  norm_num [rectify, fsignum] at h1

/-- C2: in the repeat-visit branch (`harmonic = prev_harmonic`), the code first
increments `sample_count` and then computes `(acc·n + value)/n` with the incremented
`n` in both numerator and denominator — at accumulator 1, count 1 and value 1 this
yields `3/2`, whereas the claimed moving average `(acc·count + value)/(count+1)` yields
`(1·1+1)/(1+1) = 1`.  (The `// moving average` comment in `demodulator.rs` and the
original inline implementation in `lib.rs`, which computes `(acc·(n-1)+value)/n`, mark
the code's numerator as a slip.) -/
theorem C2_code_divergence :
    (visitStep 1 1 (⟨10, 1, 1, fun _ => 1, fun _ => 1⟩ : CVDemodulator) 1).working_amp_l 0
        = 3/2
      ∧ (visitStep 1 1 (⟨10, 1, 1, fun _ => 1, fun _ => 1⟩ : CVDemodulator) 1).sample_count
        = 2
      ∧ ((3:ℚ)/2 ≠ (1 * 1 + 1) / (1 + 1)) := by
  refine ⟨?_, ?_, by norm_num⟩
  · rw [visitStep_repeat1]
    norm_num [updFn]
  · rw [visitStep_repeat1]

/-- C3 (amended): in every `generate_samples` output sample, every phase accumulator
`i < 512` advances by exactly `freq i / sample_rate` modulo 2 (the wrap subtracts 2
exactly when the sum strictly exceeds 2); from a state with `phases i ∈ [0, 2]` and a
step in `[0, 2)` the phase stays in the closed interval `[0, 2]` — not `[0, 2)`, since
a sum landing exactly on 2 is not wrapped — and the staggered reset state
`512/(i+1)` lies far outside `[0, 2)` for small `i`, so the claimed invariant does not
hold from it. -/
theorem C3_phase_step (sinTau fsqrt : ℚ → ℚ) (i_freqs : ℕ → ℚ) (sample_rate : ℚ)
    (gm : BasicGainMode) (s : AdditiveEngine) (i : ℕ) (hi : i < MAX_HARMONICS) :
    (engineStep sinTau fsqrt i_freqs sample_rate gm s).1.phases i
        = phaseStep (s.phases i) (i_freqs i / sample_rate)
      ∧ (phaseStep (s.phases i) (i_freqs i / sample_rate)
            = s.phases i + i_freqs i / sample_rate
          ∨ phaseStep (s.phases i) (i_freqs i / sample_rate)
            = s.phases i + i_freqs i / sample_rate - 2)
      ∧ (0 ≤ s.phases i → s.phases i ≤ 2 → 0 ≤ i_freqs i / sample_rate →
          i_freqs i / sample_rate < 2 →
          0 ≤ (engineStep sinTau fsqrt i_freqs sample_rate gm s).1.phases i
            ∧ (engineStep sinTau fsqrt i_freqs sample_rate gm s).1.phases i ≤ 2) := by
  have hspec := (engineStep_spec sinTau fsqrt i_freqs sample_rate gm s i hi).1
  refine ⟨hspec, ?_, ?_⟩
  · unfold phaseStep
    split
    · right; rfl
    · left; rfl
  · intro ha hb hc hd
    rw [hspec]
    unfold phaseStep
    split <;> constructor <;> linarith

/-- Witness for C3 at harmonic 0, frequency 100, sample rate 44100, from the default
engine state. -/
theorem C3_witness :
    (engineStep (fun _ => 0) (fun _ => 0) (fun _ => 100) 44100 BasicGainMode.Flat
          AdditiveEngine.init).1.phases 0
        = phaseStep (AdditiveEngine.init.phases 0) ((fun _ => (100:ℚ)) 0 / 44100)
      ∧ (phaseStep (AdditiveEngine.init.phases 0) ((fun _ => (100:ℚ)) 0 / 44100)
            = AdditiveEngine.init.phases 0 + (fun _ => (100:ℚ)) 0 / 44100
          ∨ phaseStep (AdditiveEngine.init.phases 0) ((fun _ => (100:ℚ)) 0 / 44100)
            = AdditiveEngine.init.phases 0 + (fun _ => (100:ℚ)) 0 / 44100 - 2)
      ∧ (0 ≤ AdditiveEngine.init.phases 0 → AdditiveEngine.init.phases 0 ≤ 2 →
          0 ≤ (fun _ => (100:ℚ)) 0 / 44100 → (fun _ => (100:ℚ)) 0 / 44100 < 2 →
          0 ≤ (engineStep (fun _ => 0) (fun _ => 0) (fun _ => 100) 44100
              BasicGainMode.Flat AdditiveEngine.init).1.phases 0
            ∧ (engineStep (fun _ => 0) (fun _ => 0) (fun _ => 100) 44100
              BasicGainMode.Flat AdditiveEngine.init).1.phases 0 ≤ 2) :=
  C3_phase_step (fun _ => 0) (fun _ => 0) (fun _ => 100) 44100 BasicGainMode.Flat
    AdditiveEngine.init 0 (by norm_num [MAX_HARMONICS])

/-- Counterexample to C3 as stated: from the staggered phase-reset state
(`phases 0 = 512/(0+1) = 512`), one sample at `freq = 22050`, `sample_rate = 44100`
(step `1/2 < 2`, in the audio range) leaves `phases 0 = 510.5 ∉ [0, 2)`. -/
theorem C3_counterexample :
    resetPhasesFn 0 = 512
      ∧ (engineStep (fun _ => 0) (fun _ => 0) (fun _ => 22050) 44100 BasicGainMode.Flat
            { AdditiveEngine.init with phases := resetPhasesFn }).1.phases 0 = 1021/2
      ∧ ¬ ((1021:ℚ)/2 < 2) := by
  refine ⟨by norm_num [resetPhasesFn, MAX_HARMONICS], ?_, by norm_num⟩
  rw [(engineStep_spec (fun _ => 0) (fun _ => 0) (fun _ => 22050) 44100
    BasicGainMode.Flat { AdditiveEngine.init with phases := resetPhasesFn } 0
    (by norm_num [MAX_HARMONICS])).1]
  norm_num [resetPhasesFn, MAX_HARMONICS, phaseStep]

/-- C4: in every `generate_samples` output sample and for every harmonic index, the
realized per-sample change of the slew state never exceeds `12.5 / sample_rate` in
magnitude, on both channels (in-range harmonics move by the clamped delta; out-of-range
and out-of-bounds indices do not move at all). -/
theorem C4_slew_rate_bound (sinTau fsqrt : ℚ → ℚ) (i_freqs : ℕ → ℚ) (sample_rate : ℚ)
    (gm : BasicGainMode) (s : AdditiveEngine) (i : ℕ) (hsr : 0 < sample_rate) :
    |(engineStep sinTau fsqrt i_freqs sample_rate gm s).1.last_amp_l i - s.last_amp_l i|
        ≤ 12.5 / sample_rate
      ∧ |(engineStep sinTau fsqrt i_freqs sample_rate gm s).1.last_amp_r i
          - s.last_amp_r i| ≤ 12.5 / sample_rate := by
  have ht : (0:ℚ) ≤ 12.5 / sample_rate := by positivity
  rcases lt_or_le i MAX_HARMONICS with hi | hi
  · have hspec := engineStep_spec sinTau fsqrt i_freqs sample_rate gm s i hi
    constructor
    · rw [hspec.2.1]
      split
      · have he : s.last_amp_l i + fclamp (s.amp_l i - s.last_amp_l i)
            (-(12.5 / sample_rate)) (12.5 / sample_rate) - s.last_amp_l i
            = fclamp (s.amp_l i - s.last_amp_l i)
                (-(12.5 / sample_rate)) (12.5 / sample_rate) := by ring
        rw [he]
        exact abs_fclamp_le _ _ ht
      · simpa using ht
    · rw [hspec.2.2]
      split
      · have he : s.last_amp_r i + fclamp (s.amp_r i - s.last_amp_r i)
            (-(12.5 / sample_rate)) (12.5 / sample_rate) - s.last_amp_r i
            = fclamp (s.amp_r i - s.last_amp_r i)
                (-(12.5 / sample_rate)) (12.5 / sample_rate) := by ring
        rw [he]
        exact abs_fclamp_le _ _ ht
      · simpa using ht
  · have hout := engineStep_out sinTau fsqrt i_freqs sample_rate gm s i hi
    rw [hout.1, hout.2]
    constructor <;> simpa using ht

/-- Witness for C4 at harmonic 0, sample rate 44100, from the default engine state. -/
theorem C4_witness :
    |(engineStep (fun _ => 0) (fun _ => 0) (fun _ => 100) 44100 BasicGainMode.Flat
          AdditiveEngine.init).1.last_amp_l 0 - AdditiveEngine.init.last_amp_l 0|
        ≤ 12.5 / 44100
      ∧ |(engineStep (fun _ => 0) (fun _ => 0) (fun _ => 100) 44100 BasicGainMode.Flat
          AdditiveEngine.init).1.last_amp_r 0 - AdditiveEngine.init.last_amp_r 0|
        ≤ 12.5 / 44100 :=
  C4_slew_rate_bound (fun _ => 0) (fun _ => 0) (fun _ => 100) 44100 BasicGainMode.Flat
    AdditiveEngine.init 0 (by norm_num)

/-- C5: if no note is held and the envelope is not releasing in the `is_releasing`
sense (flag unset, or state below 0.001), `AdditiveVoice::process` returns with the
output buffers (and the whole voice state) completely untouched. -/
theorem C5_process_noop (sinTau fsqrt pow2 : ℚ → ℚ) (sample_rate : ℚ)
    (gm : BasicGainMode) (slew_limiting : Bool) (v : AdditiveVoice)
    (out_l out_r : List ℚ) (hn : v.notes_on = 0)
    (hr : v.envelope.releasing = false ∨ v.envelope.state < 1/1000) :
    AdditiveVoice.process sinTau fsqrt pow2 sample_rate gm slew_limiting v out_l out_r
      = some (v, out_l, out_r) := by
  unfold AdditiveVoice.process
  rw [if_neg]
  rintro (hp | hp)
  · omega
  · unfold AREnvelope.is_releasing at hp
    rw [Bool.and_eq_true, decide_eq_true_iff] at hp
    rcases hr with hr | hr
    · rw [hr] at hp
      exact Bool.false_ne_true hp.1
    · exact absurd hp.2 (not_le.mpr hr)

/-- Witness for C5: the default voice (no notes, not releasing) leaves arbitrary
buffers untouched. -/
theorem C5_witness :
    AdditiveVoice.process (fun _ => 0) (fun _ => 0) (fun _ => 0) 44100
        BasicGainMode.Flat true AdditiveVoice.init [1, 2, 3] [4, 5, 6]
      = some (AdditiveVoice.init, [1, 2, 3], [4, 5, 6]) :=
  C5_process_noop (fun _ => 0) (fun _ => 0) (fun _ => 0) 44100 BasicGainMode.Flat true
    AdditiveVoice.init [1, 2, 3] [4, 5, 6] rfl (Or.inl rfl)

/-- C6 (amended): `note_off` decrements `notes_on`, saturating at 0, and calls
`start_release` exactly when the post-decrement count is 0 — that is, on the 1→0
transition and also on any `note_off` issued while `notes_on` is already 0 (the flag is
then set even though no transition happened); the envelope state value itself is never
touched. -/
theorem C6_note_off (v : AdditiveVoice) :
    (AdditiveVoice.note_off v).notes_on = v.notes_on - 1
      ∧ ((AdditiveVoice.note_off v).envelope.releasing = true
          ↔ (v.notes_on ≤ 1 ∨ v.envelope.releasing = true))
      ∧ (AdditiveVoice.note_off v).envelope.state = v.envelope.state := by
  unfold AdditiveVoice.note_off
  by_cases h : v.notes_on - 1 = 0
  · rw [if_pos h]
    unfold AREnvelope.start_release
    exact ⟨rfl, by simp [show v.notes_on ≤ 1 from by omega], rfl⟩
  · rw [if_neg h]
    exact ⟨rfl, by simp [show ¬ (v.notes_on ≤ 1) from by omega], rfl⟩

/-- Witness for C6 on a voice with two held notes. -/
theorem C6_witness :
    (AdditiveVoice.note_off { AdditiveVoice.init with notes_on := 2 }).notes_on
        = ({ AdditiveVoice.init with notes_on := 2 } : AdditiveVoice).notes_on - 1
      ∧ ((AdditiveVoice.note_off
            { AdditiveVoice.init with notes_on := 2 }).envelope.releasing = true
          ↔ (({ AdditiveVoice.init with notes_on := 2 } : AdditiveVoice).notes_on ≤ 1
            ∨ ({ AdditiveVoice.init with notes_on := 2 }
                : AdditiveVoice).envelope.releasing = true))
      ∧ (AdditiveVoice.note_off
            { AdditiveVoice.init with notes_on := 2 }).envelope.state
        = ({ AdditiveVoice.init with notes_on := 2 } : AdditiveVoice).envelope.state :=
  C6_note_off { AdditiveVoice.init with notes_on := 2 }

/-- Counterexample to C6 as stated: on the default voice (`notes_on = 0`, releasing
flag unset), a `note_off` call made while `notes_on` is already 0 does trigger
`start_release`: the releasing flag flips to `true`. -/
theorem C6_counterexample :
    AdditiveVoice.init.notes_on = 0
      ∧ AdditiveVoice.init.envelope.releasing = false
      ∧ (AdditiveVoice.note_off AdditiveVoice.init).envelope.releasing = true :=
  ⟨rfl, rfl, rfl⟩

/-- C7: the gate replaces a biased sample by zero exactly when it lies strictly above
`ceiling` or strictly below `floor`; with `floor ≤ ceiling`, a biased sample exactly
equal to `floor` or to `ceiling` is not gated. -/
theorem C7_gate_boundaries (x floor ceiling bias : ℚ) :
    gateSample x floor ceiling bias
        = (if x + bias > ceiling ∨ x + bias < floor then 0 else x + bias)
      ∧ (floor ≤ ceiling →
          (x + bias = floor → gateSample x floor ceiling bias = x + bias)
          ∧ (x + bias = ceiling → gateSample x floor ceiling bias = x + bias)) := by
  have hmain : gateSample x floor ceiling bias
      = (if x + bias > ceiling ∨ x + bias < floor then 0 else x + bias) := by
    unfold gateSample
    dsimp only
    by_cases hc : x + bias > ceiling
    · rw [if_pos hc, if_pos (Or.inl hc)]
      split <;> rfl
    · rw [if_neg hc]
      by_cases hf : x + bias < floor
      · rw [if_pos hf, if_pos (Or.inr hf)]
      · rw [if_neg hf, if_neg (by push_neg; exact ⟨not_lt.mp hc, not_lt.mp hf⟩)]
  refine ⟨hmain, fun hfc => ⟨fun heq => ?_, fun heq => ?_⟩⟩
  · rw [hmain, if_neg (show ¬ (x + bias > ceiling ∨ x + bias < floor) from by
      push_neg
      rw [heq]
      exact ⟨hfc, le_refl floor⟩)]
  · rw [hmain, if_neg (show ¬ (x + bias > ceiling ∨ x + bias < floor) from by
      push_neg
      rw [heq]
      exact ⟨le_refl ceiling, hfc⟩)]

/-- Witness for C7 at `x = 2`, `floor = 0`, `ceiling = 2`, `bias = 0`. -/
theorem C7_witness :
    gateSample 2 0 2 0 = (if (2:ℚ) + 0 > 2 ∨ (2:ℚ) + 0 < 0 then 0 else 2 + 0)
      ∧ ((0:ℚ) ≤ 2 →
          ((2:ℚ) + 0 = 0 → gateSample 2 0 2 0 = 2 + 0)
          ∧ ((2:ℚ) + 0 = 2 → gateSample 2 0 2 0 = 2 + 0)) :=
  C7_gate_boundaries 2 0 2 0

/-- C8 (amended): the slew state is updated through the clamp only for harmonics whose
frequency lies in `[20, sample_rate/2]`; for every other harmonic the slew state is left
completely untouched by the sample (though its phase still advances). -/
theorem C8_slew_update (sinTau fsqrt : ℚ → ℚ) (i_freqs : ℕ → ℚ) (sample_rate : ℚ)
    (gm : BasicGainMode) (s : AdditiveEngine) (i : ℕ) (hi : i < MAX_HARMONICS) :
    ((20 ≤ i_freqs i ∧ i_freqs i ≤ sample_rate / 2) →
        (engineStep sinTau fsqrt i_freqs sample_rate gm s).1.last_amp_l i
            = s.last_amp_l i + fclamp (s.amp_l i - s.last_amp_l i)
                (-(12.5 / sample_rate)) (12.5 / sample_rate)
          ∧ (engineStep sinTau fsqrt i_freqs sample_rate gm s).1.last_amp_r i
            = s.last_amp_r i + fclamp (s.amp_r i - s.last_amp_r i)
                (-(12.5 / sample_rate)) (12.5 / sample_rate))
      ∧ (¬ (20 ≤ i_freqs i ∧ i_freqs i ≤ sample_rate / 2) →
          (engineStep sinTau fsqrt i_freqs sample_rate gm s).1.last_amp_l i
              = s.last_amp_l i
            ∧ (engineStep sinTau fsqrt i_freqs sample_rate gm s).1.last_amp_r i
              = s.last_amp_r i)
      ∧ (engineStep sinTau fsqrt i_freqs sample_rate gm s).1.phases i
        = phaseStep (s.phases i) (i_freqs i / sample_rate) := by
  have hspec := engineStep_spec sinTau fsqrt i_freqs sample_rate gm s i hi
  refine ⟨fun hc => ?_, fun hc => ?_, hspec.1⟩
  · rw [hspec.2.1, hspec.2.2, if_pos hc, if_pos hc]
    exact ⟨rfl, rfl⟩
  · rw [hspec.2.1, hspec.2.2, if_neg hc, if_neg hc]
    exact ⟨rfl, rfl⟩

/-- Witness for C8 at harmonic 0 with an in-range frequency (100 Hz at 44100). -/
theorem C8_witness :
    ((20 ≤ (fun _ => (100:ℚ)) 0 ∧ (fun _ => (100:ℚ)) 0 ≤ 44100 / 2) →
        (engineStep (fun _ => 0) (fun _ => 0) (fun _ => 100) 44100 BasicGainMode.Flat
              AdditiveEngine.init).1.last_amp_l 0
            = AdditiveEngine.init.last_amp_l 0
              + fclamp (AdditiveEngine.init.amp_l 0 - AdditiveEngine.init.last_amp_l 0)
                (-(12.5 / 44100)) (12.5 / 44100)
          ∧ (engineStep (fun _ => 0) (fun _ => 0) (fun _ => 100) 44100 BasicGainMode.Flat
              AdditiveEngine.init).1.last_amp_r 0
            = AdditiveEngine.init.last_amp_r 0
              + fclamp (AdditiveEngine.init.amp_r 0 - AdditiveEngine.init.last_amp_r 0)
                (-(12.5 / 44100)) (12.5 / 44100))
      ∧ (¬ (20 ≤ (fun _ => (100:ℚ)) 0 ∧ (fun _ => (100:ℚ)) 0 ≤ 44100 / 2) →
          (engineStep (fun _ => 0) (fun _ => 0) (fun _ => 100) 44100 BasicGainMode.Flat
              AdditiveEngine.init).1.last_amp_l 0 = AdditiveEngine.init.last_amp_l 0
            ∧ (engineStep (fun _ => 0) (fun _ => 0) (fun _ => 100) 44100
                BasicGainMode.Flat AdditiveEngine.init).1.last_amp_r 0
              = AdditiveEngine.init.last_amp_r 0)
      ∧ (engineStep (fun _ => 0) (fun _ => 0) (fun _ => 100) 44100 BasicGainMode.Flat
          AdditiveEngine.init).1.phases 0
        = phaseStep (AdditiveEngine.init.phases 0) ((fun _ => (100:ℚ)) 0 / 44100) :=
  C8_slew_update (fun _ => 0) (fun _ => 0) (fun _ => 100) 44100 BasicGainMode.Flat
    AdditiveEngine.init 0 (by norm_num [MAX_HARMONICS])

/-- Counterexample to C8 as stated: with `freq 0 = 0` (outside `[20, sr/2]`), target
amplitude 1 and slew state 0, the claim predicts the slew state moves to
`0 + clamp(1, ±12.5/44100) = 12.5/44100 ≠ 0`, but the code leaves it at 0. -/
theorem C8_counterexample :
    (engineStep (fun _ => 0) (fun _ => 0) (fun _ => 0) 44100 BasicGainMode.Flat
          { AdditiveEngine.init with amp_l := fun _ => 1 }).1.last_amp_l 0 = 0
      ∧ (0:ℚ) ≠ 0 + fclamp (1 - 0) (-(12.5 / 44100)) (12.5 / 44100) := by
  constructor
  · rw [(engineStep_spec (fun _ => 0) (fun _ => 0) (fun _ => 0) 44100 BasicGainMode.Flat
      { AdditiveEngine.init with amp_l := fun _ => 1 } 0 (by norm_num [MAX_HARMONICS])).2.1]
    norm_num [AdditiveEngine.init]
  · norm_num [fclamp]

/-- C9: `generate_samples` fails (panics) exactly on mismatched output buffer lengths,
`submit_amplitudes` exactly when a submitted amplitude slice does not have length 512,
and `submit_samples` exactly on mismatched input buffer lengths; for every other choice
of arguments each call returns normally. -/
theorem C9_failure_conditions (sinTau fsqrt : ℚ → ℚ) (i_freqs : ℕ → ℚ)
    (sample_rate : ℚ) (gm : BasicGainMode) (es : AdditiveEngine)
    (out_l out_r amp_l amp_r : List ℚ) (target : ℕ → ℕ) (harmonic_offset : ℕ)
    (floor ceiling bias : ℚ) (ds : CVDemodulator) (in_l in_r : List ℚ) :
    (AdditiveEngine.generate_samples sinTau fsqrt i_freqs sample_rate gm es out_l out_r
        = none ↔ out_l.length ≠ out_r.length)
      ∧ (AdditiveEngine.submit_amplitudes es amp_l amp_r = none
          ↔ (amp_l.length ≠ MAX_HARMONICS ∨ amp_r.length ≠ MAX_HARMONICS))
      ∧ (CVDemodulator.submit_samples target harmonic_offset floor ceiling bias ds
          in_l in_r = none ↔ in_l.length ≠ in_r.length) := by
  refine ⟨?_, ?_, ?_⟩
  · unfold AdditiveEngine.generate_samples
    split <;> simp_all
  · unfold AdditiveEngine.submit_amplitudes
    by_cases h1 : amp_l.length = MAX_HARMONICS <;>
      by_cases h2 : amp_r.length = MAX_HARMONICS <;> simp [h1, h2]
  · unfold CVDemodulator.submit_samples
    split <;> simp_all

/-- Witness for C9 on concrete buffers (equal and unequal lengths). -/
theorem C9_witness :
    (AdditiveEngine.generate_samples (fun _ => 0) (fun _ => 0) (fun _ => 0) 44100
        BasicGainMode.Flat AdditiveEngine.init [1] [2] = none
      ↔ ([(1:ℚ)]).length ≠ ([(2:ℚ)]).length)
      ∧ (AdditiveEngine.submit_amplitudes AdditiveEngine.init [1] [2] = none
          ↔ (([(1:ℚ)]).length ≠ MAX_HARMONICS ∨ ([(2:ℚ)]).length ≠ MAX_HARMONICS))
      ∧ (CVDemodulator.submit_samples (linearTarget 512) 0 (-2) 2 0 CVDemodulator.init
          [1] [2, 3] = none ↔ ([(1:ℚ)]).length ≠ ([(2:ℚ), 3]).length) :=
  C9_failure_conditions (fun _ => 0) (fun _ => 0) (fun _ => 0) 44100 BasicGainMode.Flat
    AdditiveEngine.init [1] [2] [1] [2] (linearTarget 512) 0 (-2) 2 0
    CVDemodulator.init [1] [2, 3]

/-- C10: in `submit_samples`, for any distribution law (any base index as a function of
progress, covering both Linear and Exponential), any `harmonic_count ∈ [1, 512]` and
`harmonic_offset ∈ [0, 512]`, every harmonic index visited by the inner loop satisfies
`1 ≤ harmonic ≤ 512`, so the storage index `harmonic - 1` neither underflows nor
exceeds the 512-element working arrays. -/
theorem C10_visit_indices_safe (target : ℕ → ℕ) (progress harmonic_count
    harmonic_offset prev_harmonic : ℕ) (hc1 : 1 ≤ harmonic_count)
    (hc2 : harmonic_count ≤ 512) (ho : harmonic_offset ≤ 512) :
    ∀ h ∈ visitList prev_harmonic harmonic_offset (target progress + harmonic_offset),
      1 ≤ h ∧ h ≤ MAX_HARMONICS ∧ h - 1 < MAX_HARMONICS := by
  intro h hm
  obtain ⟨hl, hr⟩ := visitList_bounds hm
  have hM : MAX_HARMONICS = 512 := rfl
  have h1 : (1:ℕ) ≤ Nat.max (Nat.max prev_harmonic harmonic_offset) 1 :=
    Nat.le_max_right _ _
  have h2 : Nat.min (target progress + harmonic_offset) MAX_HARMONICS ≤ MAX_HARMONICS :=
    Nat.min_le_right _ _
  omega

/-- Witness for C10: with the Linear law at `harmonic_count = 512`, progress 3, offset
0 and `prev_harmonic = 1`, the single visited index 1 is in bounds. -/
theorem C10_witness :
    1 ≤ 1 ∧ 1 ≤ MAX_HARMONICS ∧ 1 - 1 < MAX_HARMONICS :=
  C10_visit_indices_safe (linearTarget 512) 3 512 0 1 (by norm_num) (by norm_num)
    (by norm_num) 1 (by decide)

end Athenic
